import Mathlib

set_option maxRecDepth 100000

/-!
Verification of the DOSBox configuration generator (`confgen.py`).

This file gives a shallow embedding of the merge-and-rewrite engine of the
repository and proves the frozen claims about it:

* configuration layers and the section-merge algorithm of
  `DosboxConfiguration.__import_ini_sections__`;
* the autoexec capture pass of `DosboxConfigParser.read`;
* the encoding fallback of `parse_dosbox_config`;
* the autoexec rewriter `to_linux_autoexec` together with
  `convert_cue_file`, modelling the three regular expressions of the
  source by explicit character-level matchers with the same backtracking
  behaviour;
* the cache-key name generator `uniq_conf_name_salted`, with a complete
  executable SHA-1 over byte lists (machine words are `Nat` reduced
  modulo `2 ^ 32`).

External collaborators of the repository (`winpathlib.to_posix_path`,
`cuescanner.*`, the stdlib INI section parser and the text decoders) are
taken as function parameters; everything else is translated directly
from the source.
-/

/-! ## Configuration data model

A parsed configuration section is an association list from option names
to values; a configuration is an association list from section names to
sections.  Python dictionaries preserve insertion order and keep a
replaced key at its original position, which the update functions below
reproduce. -/

/-- Option name/value pairs of one section (a Python `dict` in source order). -/
abbrev ConfOptions := List (String × String)

/-- Section name to option-map association (a Python `dict` in source order). -/
abbrev ConfSections := List (String × ConfOptions)

/-- `opts[k] = v` on a Python dict: replace in place if the key exists,
otherwise append at the end. -/
def setOpt : ConfOptions → String → String → ConfOptions
  | [], k, v => [(k, v)]
  | (k', v') :: t, k, v =>
    if k' = k then (k, v) :: t else (k', v') :: setOpt t k v

/-- Dictionary lookup of an option (first, hence unique, occurrence). -/
def lookupOpt : ConfOptions → String → Option String
  | [], _ => none
  | (k', v') :: t, k => if k' = k then some v' else lookupOpt t k

/-- Update option `k` of section `s` in place (used only when `s` is present,
mirroring `self[section][option] = value`). -/
def setSec : ConfSections → String → String → String → ConfSections
  | [], _, _, _ => []
  | (n, o) :: t, s, k, v =>
    if n = s then (n, setOpt o k v) :: t else (n, o) :: setSec t s k v

/-- Dictionary lookup of a section. -/
def lookupSec : ConfSections → String → Option ConfOptions
  | [], _ => none
  | (n, o) :: t, s => if n = s then some o else lookupSec t s

/-! ## Cache key generator (`uniq_conf_name_salted`)

The source computes `hashlib.sha1(uid_line.encode('utf-8')).hexdigest()[:6]`.
SHA-1 is implemented below in full so that the generated names are
concrete; 32-bit words are natural numbers taken modulo `2 ^ 32`. -/

/-- Truncate to a 32-bit machine word. -/
def u32 (n : Nat) : Nat := n % 4294967296

/-- Rotate a 32-bit word left by `k` bits. -/
def rotl (k n : Nat) : Nat := u32 (n * 2 ^ k + n / 2 ^ (32 - k))

/-- UTF-8 encoding of one character (the standard four-range scheme),
modelling Python's `str.encode('utf-8')` per character. -/
def utf8EncodeChar (c : Char) : List Nat :=
  let n := c.toNat
  if n < 128 then [n]
  else if n < 2048 then [192 + n / 64, 128 + n % 64]
  else if n < 65536 then [224 + n / 4096, 128 + n / 64 % 64, 128 + n % 64]
  else [240 + n / 262144, 128 + n / 4096 % 64, 128 + n / 64 % 64, 128 + n % 64]

/-- UTF-8 encoding of a string as a byte list. -/
def utf8Encode (s : String) : List Nat :=
  (s.toList.map utf8EncodeChar).flatten

/-- `k` bytes of `n`, big endian. -/
def beBytes (k : Nat) (n : Nat) : List Nat :=
  (List.range k).map (fun i => n / 2 ^ (8 * (k - 1 - i)) % 256)

/-- SHA-1 padding: `0x80`, zero bytes to 56 mod 64, then the bit length
as eight big-endian bytes. -/
def sha1Pad (msg : List Nat) : List Nat :=
  let len := msg.length
  let zeros := (64 - (len + 9) % 64) % 64
  msg ++ [128] ++ List.replicate zeros 0 ++ beBytes 8 (len * 8)

/-- Split a byte list into 64-byte blocks (structural recursion on a fuel
argument so that the kernel can evaluate it; the fuel `l.length` always
suffices because every step removes at least one byte). -/
def toBlocksAux : Nat → List Nat → List (List Nat)
  | 0, _ => []
  | _, [] => []
  | fuel + 1, x :: xs => ((x :: xs).take 64) :: toBlocksAux fuel ((x :: xs).drop 64)

/-- Split a byte list into 64-byte blocks. -/
def toBlocks (l : List Nat) : List (List Nat) :=
  toBlocksAux l.length l

/-- A four-byte big-endian word. -/
def beWord : List Nat → Nat
  | [a, b, c, d] => ((a * 256 + b) * 256 + c) * 256 + d
  | _ => 0

/-- The sixteen message words of one 64-byte block. -/
def words16 (blk : List Nat) : List Nat :=
  (List.range 16).map (fun i => beWord ((blk.drop (4 * i)).take 4))

/-- Extend sixteen message words to the eighty-word SHA-1 schedule. -/
def sha1Schedule (w16 : List Nat) : List Nat :=
  (List.range 64).foldl
    (fun w _ =>
      let n := w.length
      let x := Nat.xor (Nat.xor (w.getD (n - 3) 0) (w.getD (n - 8) 0))
        (Nat.xor (w.getD (n - 14) 0) (w.getD (n - 16) 0))
      w ++ [rotl 1 x])
    w16

/-- The five SHA-1 chaining words. -/
structure Sha1State where
  a : Nat
  b : Nat
  c : Nat
  d : Nat
  e : Nat
deriving DecidableEq

/-- Round function: choice, parity, majority, parity. -/
def sha1F (t b c d : Nat) : Nat :=
  if t < 20 then Nat.lor (Nat.land b c) (Nat.land (4294967295 - b) d)
  else if t < 40 then Nat.xor (Nat.xor b c) d
  else if t < 60 then Nat.lor (Nat.lor (Nat.land b c) (Nat.land b d)) (Nat.land c d)
  else Nat.xor (Nat.xor b c) d

/-- Round constants. -/
def sha1K (t : Nat) : Nat :=
  if t < 20 then 1518500249
  else if t < 40 then 1859775393
  else if t < 60 then 2400959708
  else 3395469782

/-- The eighty compression rounds of one block. -/
def sha1Rounds (w : List Nat) (s : Sha1State) : Sha1State :=
  (List.range 80).foldl
    (fun st t =>
      let temp := u32 (rotl 5 st.a + sha1F t st.b st.c st.d + st.e + sha1K t + w.getD t 0)
      { a := temp, b := st.a, c := rotl 30 st.b, d := st.c, e := st.d })
    s

/-- SHA-1 initial state. -/
def sha1Init : Sha1State :=
  { a := 1732584193, b := 4023233417, c := 2562383102, d := 271733878, e := 3285377520 }

/-- Fold the compression function over all blocks. -/
def sha1Blocks (blocks : List (List Nat)) : Sha1State :=
  blocks.foldl
    (fun h blk =>
      let r := sha1Rounds (sha1Schedule (words16 blk)) h
      { a := u32 (h.a + r.a), b := u32 (h.b + r.b), c := u32 (h.c + r.c),
        d := u32 (h.d + r.d), e := u32 (h.e + r.e) })
    sha1Init

/-- One lowercase hexadecimal digit. -/
def hexDigit : Nat → Char
  | 0 => '0' | 1 => '1' | 2 => '2' | 3 => '3' | 4 => '4'
  | 5 => '5' | 6 => '6' | 7 => '7' | 8 => '8' | 9 => '9'
  | 10 => 'a' | 11 => 'b' | 12 => 'c' | 13 => 'd' | 14 => 'e'
  | _ + 15 => 'f'

/-- Eight lowercase hex digits of a 32-bit word, most significant first. -/
def wordHex (w : Nat) : List Char :=
  (List.range 8).map (fun i => hexDigit (w / 16 ^ (7 - i) % 16))

/-- `hashlib.sha1(msg).hexdigest()` as a character list. -/
def sha1HexChars (msg : List Nat) : List Char :=
  let h := sha1Blocks (toBlocks (sha1Pad msg))
  wordHex h.a ++ wordHex h.b ++ wordHex h.c ++ wordHex h.d ++ wordHex h.e

/-- `uniq_conf_name_salted` from the source: concatenate the app id, the
argument strings (no separator) and the salt, hash, keep the first six
hex digits, and format the file name. -/
def uniq_conf_name_salted (pfx appId : String) (args : List String) (salt : String) : String :=
  let uidLine := appId ++ String.join args ++ salt
  let uid := String.mk ((sha1HexChars (utf8Encode uidLine)).take 6)
  pfx ++ "_" ++ appId ++ "_" ++ uid ++ ".conf"

/-- `uniq_conf_name` from the source. -/
def uniq_conf_name (appId : String) (args : List String) : String :=
  uniq_conf_name_salted "boxtron" appId args "v2"

/-- A lowercase hexadecimal digit character. -/
def isHexLowerChar (c : Char) : Bool := "0123456789abcdef".toList.contains c

/-! ## Python string primitives

`str.lower`, `str.upper`, `str.strip`, `str.rstrip`, `str.startswith`
and `str.endswith` are modelled character-list-wise (ASCII case
mapping, which covers every string the source applies them to). -/

/-- A character stripped by Python's `str.strip()` with no argument. -/
def isPySpace (c : Char) : Bool :=
  if c = ' ' ∨ c = '\t' ∨ c = '\n' ∨ c = '\x0d' ∨ c = '\x0b' ∨ c = '\x0c' then true else false

/-- `str.lower()`. -/
def strLower (s : String) : String := String.mk (s.toList.map Char.toLower)

/-- `str.upper()`. -/
def strUpper (s : String) : String := String.mk (s.toList.map Char.toUpper)

/-- `str.rstrip()`. -/
def pyRstrip (s : String) : String :=
  String.mk ((s.toList.reverse.dropWhile isPySpace).reverse)

/-- `str.strip()`. -/
def pyStrip (s : String) : String :=
  String.mk (((s.toList.dropWhile isPySpace).reverse.dropWhile isPySpace).reverse)

/-- `str.startswith(pre)`. -/
def strStartsWith (s pre : String) : Bool :=
  s.toList.take pre.toList.length == pre.toList

/-- `str.endswith(suf)`. -/
def strEndsWith (s suf : String) : Bool :=
  s.toList.drop (s.toList.length - suf.toList.length) == suf.toList
    && suf.toList.length ≤ s.toList.length

/-! ## Layer merge (`DosboxConfiguration.__import_ini_sections__`) -/

/-- One iteration of the loop of `__import_ini_sections__`: a section
named `autoexec` is skipped; an existing section is updated option by
option through `self.set` (in the incoming section's option order); an
absent section is added wholesale at the end of the dict. -/
def importStep (acc : ConfSections) (sec : String × ConfOptions) : ConfSections :=
  if sec.1 = "autoexec" then acc
  else if (lookupSec acc sec.1).isSome then
    sec.2.foldl (fun a p => setSec a sec.1 p.1 p.2) acc
  else acc ++ [sec]

/-- `__import_ini_sections__`: merge the sections of one parsed layer
into the accumulated configuration, processing the layer's sections in
order. -/
def importIniSections (acc cfg : ConfSections) : ConfSections :=
  cfg.foldl importStep acc

/-- Value of option `k` of section `s` in a merged configuration. -/
def confLookup (secs : ConfSections) (s k : String) : Option String :=
  match lookupSec secs s with
  | some o => lookupOpt o k
  | none => none

/-! ## Source reader (`DosboxConfigParser`) -/

/-- The state machine of the second pass of `DosboxConfigParser.read`:
before a line whose stripped text starts with `[autoexec]` is seen,
lines are discarded; from the line after it on, every line is captured
with its trailing whitespace stripped (`line.rstrip()`).  The flag is
never reset, so capture continues to the end of the file even past a
later section header. -/
def autoexecCaptureGo : Bool → List String → List String
  | _, [] => []
  | true, l :: ls => pyRstrip l :: autoexecCaptureGo true ls
  | false, l :: ls =>
    if strStartsWith (pyStrip l) "[autoexec]" then autoexecCaptureGo true ls
    else autoexecCaptureGo false ls

/-- Autoexec lines captured from a file, given as its decoded lines
(line terminators already removed; a captured line is `rstrip`ped, so
the terminator's absence is immaterial). -/
def autoexecCapture (lines : List String) : List String :=
  autoexecCaptureGo false lines

/-- State of a `DosboxConfigParser`: the key/value sections accumulated
by the inherited `ConfigParser.read`, and the raw `autoexec_lines` list
of the second pass. -/
structure DosboxConfigParserState where
  sections : ConfSections
  autoexec_lines : List String
deriving DecidableEq

/-- A freshly constructed `DosboxConfigParser()`. -/
def emptyParserState : DosboxConfigParserState :=
  { sections := [], autoexec_lines := [] }

/-- Re-reading into an existing `ConfigParser` merges: existing sections
are updated option by option, new sections are appended (stdlib
behaviour with `strict=False`). -/
def mergeIniStep (acc : ConfSections) (sec : String × ConfOptions) : ConfSections :=
  if (lookupSec acc sec.1).isSome then
    sec.2.foldl (fun a p => setSec a sec.1 p.1 p.2) acc
  else acc ++ [sec]

/-- Merge a newly parsed section list into parser state (stdlib
`ConfigParser.read` on a parser that may already hold sections). -/
def mergeIniRead (acc cfg : ConfSections) : ConfSections :=
  cfg.foldl mergeIniStep acc

/-- Outcome of decoding one file under one text codec: either every
line decodes, or a `UnicodeDecodeError` is raised after some initial
part of the lines has already been decoded and handed to the parser —
Python text I/O decodes incrementally, so a file larger than one I/O
chunk can fail partway through, after the parser has stored sections
from the decoded part. -/
inductive DecodeResult where
  /-- The whole file decoded to these lines. -/
  | ok (lines : List String)
  /-- Decoding failed after yielding these lines. -/
  | fail (decoded : List String)
deriving DecidableEq

/-- A `DosboxConfigParser.read` whose decoding covers the whole file:
the inherited first pass merges the parsed sections into whatever the
parser already stores (`parseIni` stands for the stdlib
`ConfigParser._read`, an external collaborator), the second pass
appends the captured autoexec lines to `self.autoexec_lines`. -/
def readOk (parseIni : List String → ConfSections) (st : DosboxConfigParserState)
    (lines : List String) : DosboxConfigParserState :=
  { sections := mergeIniRead st.sections (parseIni lines),
    autoexec_lines := st.autoexec_lines ++ autoexecCapture lines }

/-- A `DosboxConfigParser.read` aborted by a `UnicodeDecodeError`
inside the inherited first pass: the sections parsed from the decoded
part of the file are already stored when the exception escapes, and the
second pass (autoexec capture) is never reached, so `autoexec_lines`
is untouched. -/
def readFail (parseIni : List String → ConfSections) (st : DosboxConfigParserState)
    (decoded : List String) : DosboxConfigParserState :=
  { sections := mergeIniRead st.sections (parseIni decoded),
    autoexec_lines := st.autoexec_lines }

/-- `DosboxConfigParser.read` on one decode outcome.  `Except.error`
carries the mutated parser state left behind by the raised
`UnicodeDecodeError` — the Python object survives the exception.  When
the first pass decodes the whole file, the second pass re-decodes the
same bytes under the same codec and therefore cannot fail. -/
def parserRead (parseIni : List String → ConfSections) (st : DosboxConfigParserState) :
    DecodeResult → Except DosboxConfigParserState DosboxConfigParserState
  | DecodeResult.ok lines => Except.ok (readOk parseIni st lines)
  | DecodeResult.fail decoded => Except.error (readFail parseIni st decoded)

/-- `parse_dosbox_config`: build one parser, try reading the file as
UTF-8; on a `UnicodeDecodeError` retry the same file once as cp1250 —
reading into the SAME parser object, which may already hold sections
stored by the failed first pass — and let a second failure propagate
(`none`).  The decoders stand for Python text I/O under the two
codecs. -/
def parse_dosbox_config (parseIni : List String → ConfSections)
    (decodeUtf8 decodeCp1250 : List Nat → DecodeResult)
    (file : List Nat) : Option (DosboxConfigParserState × String) :=
  let config := emptyParserState
  match parserRead parseIni config (decodeUtf8 file) with
  | Except.ok st => some (st, "utf-8")
  | Except.error st1 =>
    match parserRead parseIni st1 (decodeCp1250 file) with
    | Except.ok st2 => some (st2, "cp1250")
    | Except.error _ => none

/-! ## Resolved configuration (`DosboxConfiguration.__init__`)

The Python object is a `dict` whose key `'autoexec'` always holds the
raw autoexec line list while every other key holds a key/value section;
the embedding splits the two.  `encoding` is the `self.encoding`
attribute. -/

/-- A parsed configuration file layer (`DosboxConfigParser` output as
consumed by `__init__`): its parsed sections, its captured autoexec
lines, and the encoding that succeeded. -/
structure ParsedSource where
  sections : ConfSections
  autoexecLines : List String
  encoding : String
deriving DecidableEq

/-- The resolved configuration. -/
structure DosboxConfiguration where
  sections : ConfSections
  autoexec : List String
  encoding : String
deriving DecidableEq

/-- Index of the character after the last `/`, as in
`posixpath.split`'s `p.rfind('/') + 1` (`none` when there is no `/`). -/
def lastSlashPos : List Char → Option Nat
  | [] => none
  | c :: t =>
    match lastSlashPos t with
    | some i => some (i + 1)
    | none => if c = '/' then some 0 else none

/-- `head.rstrip('/')`. -/
def dropTrailingSlashes (cs : List Char) : List Char :=
  (cs.reverse.dropWhile (fun c => c == '/')).reverse

/-- `os.path.split` for POSIX paths: split after the last slash, then
strip trailing slashes from the head unless it is all slashes. -/
def splitPath (p : String) : String × String :=
  let cs := p.toList
  let i := match lastSlashPos cs with | some j => j + 1 | none => 0
  let head := cs.take i
  let tail := cs.drop i
  let head2 :=
    if head.isEmpty then head
    else if head.all (fun c => c == '/') then head
    else dropTrailingSlashes head
  (String.mk head2, String.mk tail)

/-- The launch lines appended by `__init__` when an executable is given:
mount the file's directory (or `.`) as drive C, change to C, invoke the
file (`call` for a `.bat`, case-insensitively), and optionally `exit`.
`toPosix` stands for the external `winpathlib.to_posix_path`. -/
def launch_lines (toPosix : String → String) (exe : Option String) (exitAfter : Bool) :
    List String :=
  match exe with
  | none => []
  | some e =>
    let posixPath := toPosix e
    let pf := splitPath posixPath
    let dir := pf.1
    let file := pf.2
    ["mount C " ++ (if dir = "" then "." else dir), "C:"]
      ++ [if strEndsWith (strLower file) ".bat" then "call " ++ file else file]
      ++ (if exitAfter then ["exit"] else [])

/-- The per-file-layer step of `__init__`: import the layer's sections,
record a non-UTF-8 encoding, and, unless `noautoexec` is set, append the
layer's autoexec lines when the parser saw an `[autoexec]` section. -/
def importLayer (noautoexec : Bool) (cfg : DosboxConfiguration) (l : ParsedSource) :
    DosboxConfiguration :=
  let cfg1 := { cfg with sections := importIniSections cfg.sections l.sections }
  let cfg2 := if l.encoding ≠ "utf-8" then { cfg1 with encoding := l.encoding } else cfg1
  if ¬noautoexec ∧ (lookupSec l.sections "autoexec").isSome then
    { cfg2 with autoexec := cfg2.autoexec ++ l.autoexecLines }
  else cfg2

/-- `DosboxConfiguration.__init__` over already-parsed file layers:
process the file layers in order, append the injected `-c` commands,
merge the in-memory tweak sections, and append the synthesized launch
lines. -/
def mkDosboxConfiguration (toPosix : String → String) (layers : List ParsedSource)
    (commands : List String) (exe : Option String) (noautoexec exitAfterExe : Bool)
    (tweak : ConfSections) : DosboxConfiguration :=
  let cfg0 : DosboxConfiguration := { sections := [], autoexec := [], encoding := "utf-8" }
  let cfg1 := layers.foldl (importLayer noautoexec) cfg0
  let cfg2 := { cfg1 with autoexec := cfg1.autoexec ++ commands }
  let cfg3 := { cfg2 with sections := importIniSections cfg2.sections tweak }
  { cfg3 with autoexec := cfg3.autoexec ++ launch_lines toPosix exe exitAfterExe }

/-- The two ways `DosboxConfiguration.set` can fail. -/
inductive SetError where
  /-- `configparser.NoSectionError`, raised when the key is absent
  (modelled as the raise statement is written). -/
  | noSectionError
  /-- `TypeError`: the dict key `'autoexec'` holds a list, so
  `self['autoexec'][option] = value` indexes a list with a string. -/
  | typeError
deriving DecidableEq

/-- `DosboxConfiguration.set`: `if section not in self: raise
NoSectionError` — membership is over the dict keys, which always
include `'autoexec'` — then `self[section][option] = value`. -/
def DosboxConfiguration.set (c : DosboxConfiguration) (sec opt val : String) :
    Except SetError DosboxConfiguration :=
  if ¬(sec = "autoexec" ∨ (lookupSec c.sections sec).isSome = true) then
    Except.error SetError.noSectionError
  else if sec = "autoexec" then Except.error SetError.typeError
  else Except.ok { c with sections := setSec c.sections sec opt val }

/-! ## Autoexec rewriter (`to_linux_autoexec`)

The three regular expressions of the source are embedded as explicit
character-level matchers.  `re.match` anchors at the start only, so a
match may leave unconsumed input behind; the matchers below reproduce
the exact (deterministic) backtracking behaviour of the patterns. -/

/-- ASCII letter, the characters `[a-z]` matches under `re.IGNORECASE`. -/
def isAsciiAlpha (c : Char) : Bool :=
  if ('a' ≤ c ∧ c ≤ 'z') ∨ ('A' ≤ c ∧ c ≤ 'Z') then true else false

/-- Greedy `' *'`: drop leading space characters. -/
def dropSpaces : List Char → List Char
  | ' ' :: t => dropSpaces t
  | cs => cs

/-- Greedy `' +'`: require one space, drop the rest. -/
def spaces1 : List Char → Option (List Char)
  | ' ' :: t => some (dropSpaces t)
  | _ => none

/-- Case-insensitive literal keyword match; returns the raw consumed
characters (the group text) and the remaining input. -/
def matchCI : List Char → List Char → Option (List Char × List Char)
  | [], cs => some ([], cs)
  | _ :: _, [] => none
  | k :: kt, c :: ct =>
    if c.toLower = k then
      match matchCI kt ct with
      | some r => some (c :: r.1, r.2)
      | none => none
    else none

/-- The alternation `(mount|imgmount)`, first alternative first (the
two can never both match at the same position). -/
def matchKeyword (cs : List Char) : Option (List Char × List Char) :=
  match matchCI "mount".toList cs with
  | some r => some r
  | none => matchCI "imgmount".toList cs

/-- `([a-z])` under `IGNORECASE`: one ASCII letter. -/
def takeDrive : List Char → Option (Char × List Char)
  | c :: t => if isAsciiAlpha c then some (c, t) else none
  | [] => none

/-- Split before the first occurrence of `stop` (which stays in the
second component). -/
def splitUntil (stop : Char) : List Char → List Char × List Char
  | [] => ([], [])
  | c :: t =>
    if c = stop then ([], c :: t)
    else
      let r := splitUntil stop t
      (c :: r.1, r.2)

/-- `"([^"]+)"`: an opening quote, at least one non-quote character,
a closing quote. -/
def takeQuoted : List Char → Option (List Char × List Char)
  | '"' :: t =>
    match splitUntil '"' t with
    | (p, '"' :: r) => if p.isEmpty then none else some (p, r)
    | _ => none
  | _ => none

/-- `([^ ]+)`: at least one non-space character, greedily. -/
def takeUnquoted (cs : List Char) : Option (List Char × List Char) :=
  let r := splitUntil ' ' cs
  if r.1.isEmpty then none else some (r.1, r.2)

/-- The optional fourth group `( +(.*))?`: it matches (and captures the
spaces together with the rest) exactly when the remainder starts with a
space; otherwise the group is skipped, `match.group(4) or ''` yields
`''`, and any glued remainder is dropped by the anchored-only match. -/
def trailingGroup : List Char → String
  | [] => ""
  | ' ' :: t => String.mk (' ' :: t)
  | _ => ""

/-- The captured groups of a successful mount/imgmount match. -/
structure MountMatch where
  /-- Group 1, raw keyword text. -/
  cmd : String
  /-- Group 2, raw drive letter. -/
  drive : Char
  /-- Group 3, raw path text. -/
  path : String
  /-- `match.group(4) or ''`. -/
  rest : String
deriving DecidableEq

/-- `mount_cmd_1` (with `quoted = true`) and `mount_cmd_2` (with
`quoted = false`):
`@? *(mount|imgmount) +([a-z]):? +"([^"]+)"( +(.*))?` and
`@? *(mount|imgmount) +([a-z]):? +([^ ]+)( +(.*))?`, anchored at the
start under `re.match`, case-insensitive.  The optional `:?` after the
drive letter followed by mandatory spaces is deterministic: consuming
the colon is right whenever possible. -/
def parseMount (quoted : Bool) (line : String) : Option MountMatch :=
  let cs0 := line.toList
  let cs1 := match cs0 with | '@' :: t => t | l => l
  let cs2 := dropSpaces cs1
  match matchKeyword cs2 with
  | none => none
  | some (kw, cs3) =>
    match spaces1 cs3 with
    | none => none
    | some cs4 =>
      match takeDrive cs4 with
      | none => none
      | some (drv, cs5) =>
        let cs6 := match cs5 with | ':' :: t => t | l => l
        match spaces1 cs6 with
        | none => none
        | some cs7 =>
          match (if quoted then takeQuoted cs7 else takeUnquoted cs7) with
          | none => none
          | some (path, cs8) =>
            some { cmd := String.mk kw, drive := drv, path := String.mk path,
                   rest := trailingGroup cs8 }

/-- `change_drv`: `@? *([a-z]:)\\? *$`, case-insensitive; group 1 is
the letter with its colon. -/
def parseChangeDrive (line : String) : Option String :=
  let cs1 := match line.toList with | '@' :: t => t | l => l
  let cs2 := dropSpaces cs1
  match cs2 with
  | c :: ':' :: r =>
    if isAsciiAlpha c then
      let r2 := match r with | '\\' :: t => t | l => l
      if (dropSpaces r2).isEmpty then some (String.mk [c, ':']) else none
    else none
  | _ => none

/-- `convert_cue_file`: pass non-cue files and cue files with valid
track paths through unchanged; otherwise the external fixer writes a
corrected copy named `boxtron.cue` and that name is returned.
`is_cue_file` and `valid_cue_file_paths` stand for the external
`cuescanner` collaborators. -/
def convert_cue_file (is_cue_file valid_cue_file_paths : String → Bool) (path : String) :
    String :=
  if ¬is_cue_file path then path
  else if valid_cue_file_paths path then path
  else "boxtron.cue"

/-- The mount-branch output of `to_linux_autoexec`: lowercased keyword,
uppercased drive letter, case-resolved (and for `imgmount` cue-checked)
path, re-quoted, with group 4 appended. -/
def mountOutput (toPosix : String → String) (is_cue_file valid_cue_file_paths : String → Bool)
    (m : MountMatch) : String :=
  let cmd := strLower m.cmd
  let drive := strUpper (String.mk [m.drive])
  let path0 := toPosix m.path
  let path :=
    if cmd = "imgmount" then convert_cue_file is_cue_file valid_cue_file_paths path0
    else path0
  cmd ++ " " ++ drive ++ " \"" ++ path ++ "\"" ++ m.rest

/-- The per-line body of the loop of `to_linux_autoexec`: quoted mount
form first, then unquoted mount form, then drive change, else the line
unchanged. -/
def toLinuxLine (toPosix : String → String) (is_cue_file valid_cue_file_paths : String → Bool)
    (line : String) : String :=
  match parseMount true line with
  | some m => mountOutput toPosix is_cue_file valid_cue_file_paths m
  | none =>
    match parseMount false line with
    | some m => mountOutput toPosix is_cue_file valid_cue_file_paths m
    | none =>
      match parseChangeDrive line with
      | some drv => strUpper drv
      | none => line

/-- `to_linux_autoexec`: the generator yields exactly one line per
input line (it never mutates its input sequence). -/
def to_linux_autoexec (toPosix : String → String)
    (is_cue_file valid_cue_file_paths : String → Bool) (autoexec : List String) :
    List String :=
  autoexec.map (toLinuxLine toPosix is_cue_file valid_cue_file_paths)

example : String.mk (sha1HexChars (utf8Encode "abc")) =
    "a9993e364706816aba3e25717850c26c9cd0d89d" := by decide

example : uniq_conf_name "123" [] = "boxtron_123_4740be.conf" := by decide

theorem hexDigit_isHexLower (n : Nat) : isHexLowerChar (hexDigit n) = true := by
  match n with
  | 0 | 1 | 2 | 3 | 4 | 5 | 6 | 7 | 8 | 9 | 10 | 11 | 12 | 13 | 14 => decide
  | m + 15 =>
    show isHexLowerChar 'f' = true
    decide

theorem length_wordHex (w : Nat) : (wordHex w).length = 8 := by
  simp [wordHex]

theorem sha1HexChars_eq (m : List Nat) :
    sha1HexChars m
      = wordHex (sha1Blocks (toBlocks (sha1Pad m))).a
        ++ wordHex (sha1Blocks (toBlocks (sha1Pad m))).b
        ++ wordHex (sha1Blocks (toBlocks (sha1Pad m))).c
        ++ wordHex (sha1Blocks (toBlocks (sha1Pad m))).d
        ++ wordHex (sha1Blocks (toBlocks (sha1Pad m))).e := rfl

theorem length_sha1HexChars (m : List Nat) : (sha1HexChars m).length = 40 := by
  rw [sha1HexChars_eq]
  simp [length_wordHex]

theorem mem_wordHex_isHex {c : Char} {w : Nat} (h : c ∈ wordHex w) :
    isHexLowerChar c = true := by
  simp only [wordHex, List.mem_map] at h
  obtain ⟨i, -, rfl⟩ := h
  exact hexDigit_isHexLower _

theorem mem_sha1HexChars_isHex {c : Char} {m : List Nat} (h : c ∈ sha1HexChars m) :
    isHexLowerChar c = true := by
  rw [sha1HexChars_eq] at h
  simp only [List.mem_append] at h
  rcases h with (((h | h) | h) | h) | h <;> exact mem_wordHex_isHex h

theorem strAppend_assoc (a b c : String) : a ++ b ++ c = a ++ (b ++ c) := by
  apply String.ext
  simp [String.data_append, List.append_assoc]

/-- Claim C8: the generated `.conf` name embeds, between the prefix/app-id
part and the `.conf` suffix, exactly the first six characters of the SHA-1
hex digest of the direct concatenation (no separator) of the app id, the
arguments in order, and the salt; that component has six characters, all
lowercase hexadecimal.  Determinism is immediate because
`uniq_conf_name_salted` is a pure function of its four arguments. -/
theorem uniq_conf_name_salted_spec (pfx appId : String) (args : List String) (salt : String) :
    uniq_conf_name_salted pfx appId args salt
      = pfx ++ "_" ++ appId ++ "_"
        ++ String.mk ((sha1HexChars (utf8Encode (appId ++ String.join args ++ salt))).take 6)
        ++ ".conf"
    ∧ ((sha1HexChars (utf8Encode (appId ++ String.join args ++ salt))).take 6).length = 6
    ∧ ∀ ch ∈ (sha1HexChars (utf8Encode (appId ++ String.join args ++ salt))).take 6,
        isHexLowerChar ch = true := by
  refine ⟨rfl, ?_, ?_⟩
  · simp [List.length_take, length_sha1HexChars]
  · intro ch hch
    exact mem_sha1HexChars_isHex (List.take_subset _ _ hch)

/-- Witness for C8 at a concrete input: the name generated for app id
`123` with no arguments and salt `v2`, and one concrete digest character
checked lowercase-hex through the theorem. -/
theorem uniq_conf_name_salted_spec_witness :
    uniq_conf_name_salted "boxtron" "123" [] "v2"
      = "boxtron" ++ "_" ++ "123" ++ "_"
        ++ String.mk ((sha1HexChars (utf8Encode ("123" ++ String.join [] ++ "v2"))).take 6)
        ++ ".conf"
    ∧ isHexLowerChar '4' = true :=
  ⟨(uniq_conf_name_salted_spec "boxtron" "123" [] "v2").1,
   (uniq_conf_name_salted_spec "boxtron" "123" [] "v2").2.2 '4' (by decide)⟩

/-- Claim C10: the namespace prefix does not influence the hexadecimal
component: for any two prefixes and identical `(appId, args, salt)`, the
generated names differ only in the literal prefix — everything after it,
including the six-character hex component, is the same string. -/
theorem uniq_conf_name_pfx_independent (p1 p2 appId : String) (args : List String) (salt : String) :
    uniq_conf_name_salted p1 appId args salt
      = p1 ++ ("_" ++ appId ++ "_"
          ++ String.mk ((sha1HexChars (utf8Encode (appId ++ String.join args ++ salt))).take 6)
          ++ ".conf")
    ∧ uniq_conf_name_salted p2 appId args salt
      = p2 ++ ("_" ++ appId ++ "_"
          ++ String.mk ((sha1HexChars (utf8Encode (appId ++ String.join args ++ salt))).take 6)
          ++ ".conf") := by
  constructor <;> simp only [uniq_conf_name_salted, strAppend_assoc]

example : parseMount false "mount c games" = some ⟨"mount", 'c', "games", ""⟩
    ∧ parseMount true "mount c games" = none := by decide

example : parseMount true "MOUNT C \"Games\\MyGame\"" = some ⟨"MOUNT", 'C', "Games\\MyGame", ""⟩ := by
  decide

example : parseMount true "imgmount d \"game.cue\" -t iso"
    = some ⟨"imgmount", 'd', "game.cue", " -t iso"⟩ := by decide

example : parseMount true "@ mount c: ." = none
    ∧ parseMount false "@ mount c: ." = some ⟨"mount", 'c', ".", ""⟩ := by decide

example : parseMount true "mount c \"a\" \"b\"" = some ⟨"mount", 'c', "a", " \"b\""⟩ := by decide

example : parseMount true "mount c \"a\"x" = some ⟨"mount", 'c', "a", ""⟩ := by decide

example : parseMount true "mount c \"a b" = none
    ∧ parseMount false "mount c \"a b" = some ⟨"mount", 'c', "\"a", " b"⟩ := by decide

example : parseMount false "mount c ab  extra  stuff"
    = some ⟨"mount", 'c', "ab", "  extra  stuff"⟩ := by decide

example : parseMount true "mount abc def" = none ∧ parseMount false "mount abc def" = none
    ∧ parseChangeDrive "mount abc def" = none := by decide

example : parseChangeDrive "c:" = some "c:" ∧ parseChangeDrive "@C:\\" = some "C:"
    ∧ parseChangeDrive " c: " = some "c:" ∧ parseChangeDrive "d:\\  " = some "d:" := by decide

example : parseMount true "mount c:d" = none ∧ parseMount false "mount c:d" = none
    ∧ parseChangeDrive "mount c:d" = none := by decide

example : parseMount true "mount c \"p\"   " = some ⟨"mount", 'c', "p", "   "⟩ := by decide

example : parseMount false "@mount D iso.cue extra" = some ⟨"mount", 'D', "iso.cue", " extra"⟩ := by
  decide

example : parseMount false "mountx c d" = none ∧ parseMount true "mountx c d" = none := by decide

example : parseMount true "Imgmount e \"disc one.cue\" rest here"
    = some ⟨"Imgmount", 'e', "disc one.cue", " rest here"⟩ := by decide

example : parseMount false " @mount c d" = none ∧ parseMount true " @mount c d" = none
    ∧ parseChangeDrive " @mount c d" = none := by decide

example :
    to_linux_autoexec (fun p => if p = "Games\\MyGame" then "games/mygame" else p)
      (fun _ => false) (fun _ => true)
      ["MOUNT C \"Games\\MyGame\"", "echo hello", "c:"]
      = ["mount C \"games/mygame\"", "echo hello", "C:"] := by decide

/-! ## Association-list lemmas for the merge -/

theorem lookupOpt_setOpt_self (o : ConfOptions) (k v : String) :
    lookupOpt (setOpt o k v) k = some v := by
  induction o with
  | nil => simp [setOpt, lookupOpt]
  | cons p t ih =>
    obtain ⟨k', v'⟩ := p
    by_cases h : k' = k <;> simp [setOpt, lookupOpt, h, ih]

theorem lookupOpt_setOpt_ne (o : ConfOptions) {q k : String} (h : q ≠ k) (v : String) :
    lookupOpt (setOpt o k v) q = lookupOpt o q := by
  induction o with
  | nil => simp [setOpt, lookupOpt, Ne.symm h]
  | cons p t ih =>
    obtain ⟨k', v'⟩ := p
    by_cases h2 : k' = k
    · subst h2
      simp [setOpt, lookupOpt, Ne.symm h]
    · simp [setOpt, lookupOpt, h2, ih]

theorem lookupOpt_eq_none_of_not_mem {o : ConfOptions} {q : String}
    (h : q ∉ o.map Prod.fst) : lookupOpt o q = none := by
  induction o with
  | nil => rfl
  | cons p t ih =>
    obtain ⟨k', v'⟩ := p
    simp only [List.map_cons, List.mem_cons] at h
    push_neg at h
    simp [lookupOpt, Ne.symm h.1, ih h.2]

theorem lookupOpt_foldSet_absent (items : ConfOptions) (base : ConfOptions) (q : String)
    (h : lookupOpt items q = none) :
    lookupOpt (items.foldl (fun a p => setOpt a p.1 p.2) base) q = lookupOpt base q := by
  induction items generalizing base with
  | nil => rfl
  | cons p t ih =>
    obtain ⟨k, v⟩ := p
    by_cases hk : k = q
    · subst hk
      simp [lookupOpt] at h
    · simp only [lookupOpt, if_neg hk] at h
      simp only [List.foldl_cons]
      rw [ih _ h, lookupOpt_setOpt_ne _ (Ne.symm hk)]

theorem lookupOpt_foldSet_present (items : ConfOptions) (base : ConfOptions) (q v : String)
    (hnd : (items.map Prod.fst).Nodup) (h : lookupOpt items q = some v) :
    lookupOpt (items.foldl (fun a p => setOpt a p.1 p.2) base) q = some v := by
  induction items generalizing base with
  | nil => simp [lookupOpt] at h
  | cons p t ih =>
    obtain ⟨k, w⟩ := p
    simp only [List.map_cons, List.nodup_cons] at hnd
    obtain ⟨hk_notin, hnd_t⟩ := hnd
    simp only [List.foldl_cons]
    by_cases hk : k = q
    · subst hk
      simp only [lookupOpt, eq_self_iff_true, if_true, Option.some.injEq] at h
      subst h
      have ht : lookupOpt t k = none := lookupOpt_eq_none_of_not_mem hk_notin
      rw [lookupOpt_foldSet_absent t _ k ht, lookupOpt_setOpt_self]
    · simp only [lookupOpt, if_neg hk] at h
      exact ih _ hnd_t h

theorem lookupSec_setSec_self (secs : ConfSections) (s k v : String) :
    lookupSec (setSec secs s k v) s = (lookupSec secs s).map (fun o => setOpt o k v) := by
  induction secs with
  | nil => rfl
  | cons p t ih =>
    obtain ⟨n, o⟩ := p
    by_cases h : n = s <;> simp [setSec, lookupSec, h, ih]

theorem lookupSec_setSec_ne (secs : ConfSections) {s' s : String} (h : s' ≠ s) (k v : String) :
    lookupSec (setSec secs s k v) s' = lookupSec secs s' := by
  induction secs with
  | nil => rfl
  | cons p t ih =>
    obtain ⟨n, o⟩ := p
    by_cases h2 : n = s
    · subst h2
      simp [setSec, lookupSec, Ne.symm h]
    · simp [setSec, lookupSec, h2, ih]

theorem lookupSec_eq_none_of_not_mem {secs : ConfSections} {s : String}
    (h : s ∉ secs.map Prod.fst) : lookupSec secs s = none := by
  induction secs with
  | nil => rfl
  | cons p t ih =>
    obtain ⟨n, o⟩ := p
    simp only [List.map_cons, List.mem_cons] at h
    push_neg at h
    simp [lookupSec, Ne.symm h.1, ih h.2]

theorem lookupSec_optsFold_ne (opts : ConfOptions) (n : String) (acc : ConfSections)
    {s : String} (h : s ≠ n) :
    lookupSec (opts.foldl (fun a p => setSec a n p.1 p.2) acc) s = lookupSec acc s := by
  induction opts generalizing acc with
  | nil => rfl
  | cons p t ih =>
    simp only [List.foldl_cons]
    rw [ih, lookupSec_setSec_ne _ h]

theorem lookupSec_optsFold_self (opts : ConfOptions) (n : String) (acc : ConfSections) :
    lookupSec (opts.foldl (fun a p => setSec a n p.1 p.2) acc) n
      = (lookupSec acc n).map (fun base => opts.foldl (fun o p => setOpt o p.1 p.2) base) := by
  induction opts generalizing acc with
  | nil => cases h : lookupSec acc n <;> simp [h]
  | cons p t ih =>
    simp only [List.foldl_cons]
    rw [ih, lookupSec_setSec_self]
    cases h : lookupSec acc n <;> simp [h]

theorem lookupSec_append_single (acc : ConfSections) (sec : String × ConfOptions) (s : String) :
    lookupSec (acc ++ [sec]) s
      = match lookupSec acc s with
        | some x => some x
        | none => if sec.1 = s then some sec.2 else none := by
  induction acc with
  | nil =>
    obtain ⟨n, o⟩ := sec
    simp [lookupSec]
  | cons p t ih =>
    obtain ⟨n, o⟩ := p
    by_cases h : n = s <;> simp [lookupSec, h, ih]

theorem lookupSec_importStep_ne (acc : ConfSections) (sec : String × ConfOptions)
    {s : String} (h : s ≠ sec.1) :
    lookupSec (importStep acc sec) s = lookupSec acc s := by
  unfold importStep
  split_ifs with h1 h2
  · rfl
  · exact lookupSec_optsFold_ne _ _ _ h
  · rw [lookupSec_append_single]
    cases hl : lookupSec acc s <;> simp [hl, Ne.symm h]

theorem lookupSec_importIni_not_mem (t : ConfSections) {S : String}
    (h : S ∉ t.map Prod.fst) (acc : ConfSections) :
    lookupSec (t.foldl importStep acc) S = lookupSec acc S := by
  induction t generalizing acc with
  | nil => rfl
  | cons sec t ih =>
    simp only [List.map_cons, List.mem_cons] at h
    push_neg at h
    simp only [List.foldl_cons]
    rw [ih h.2, lookupSec_importStep_ne _ _ h.1]

theorem lookupSec_importIni (cfg : ConfSections) (hc : (cfg.map Prod.fst).Nodup)
    (acc : ConfSections) (S : String) (hS : S ≠ "autoexec") :
    lookupSec (importIniSections acc cfg) S =
      match lookupSec cfg S with
      | none => lookupSec acc S
      | some opts =>
        match lookupSec acc S with
        | none => some opts
        | some base => some (opts.foldl (fun o p => setOpt o p.1 p.2) base) := by
  induction cfg generalizing acc with
  | nil => rfl
  | cons sec t ih =>
    obtain ⟨n, o⟩ := sec
    simp only [List.map_cons, List.nodup_cons] at hc
    obtain ⟨hn, ht⟩ := hc
    simp only [importIniSections, List.foldl_cons] at ih ⊢
    by_cases hns : n = S
    · subst hns
      rw [lookupSec_importIni_not_mem t hn]
      unfold importStep
      split_ifs with h1 h2
      · exact absurd h1 hS
      · rw [lookupSec_optsFold_self]
        cases hacc : lookupSec acc n with
        | none =>
          rw [hacc] at h2
          simp at h2
        | some base => simp [lookupSec, hacc]
      · rw [lookupSec_append_single]
        cases hacc : lookupSec acc n with
        | none => simp [lookupSec, hacc]
        | some base =>
          rw [hacc] at h2
          simp at h2
    · rw [ih ht, lookupSec_importStep_ne _ _ (Ne.symm hns)]
      simp [lookupSec, hns]

/-- Claim C1, counterexample: the claim quantifies over every section
`S`, but `__import_ini_sections__` skips a section literally named
`autoexec`, so when both layers define `autoexec.k` the resolved
configuration does not hold L2's value (the section is never merged at
all). -/
theorem merge_override_autoexec_cex :
    confLookup
        (importIniSections (importIniSections [] [("autoexec", [("k", "a")])])
          [("autoexec", [("k", "b")])])
        "autoexec" "k" ≠ some "b" := by decide

/-- Claim C1 (amended): for every section `S` other than the literal
name `autoexec` (which the merge skips), merging layers L1 then L2 into
a fresh configuration gives: if both define `S.k`, the resolved `S.k`
is L2's value; an option of `S` defined only by L1 keeps L1's value;
and a section of L2 absent from the accumulator is added wholesale.
Section names within a layer and option keys within a section are
unique, as `ConfigParser` guarantees for parsed layers. -/
theorem merge_override (L1 L2 : ConfSections) (S k : String)
    (hS : S ≠ "autoexec")
    (h1 : (L1.map Prod.fst).Nodup) (h2 : (L2.map Prod.fst).Nodup) :
    (∀ o1 o2 v2, lookupSec L1 S = some o1 → lookupSec L2 S = some o2 →
        (o2.map Prod.fst).Nodup → (lookupOpt o1 k).isSome = true →
        lookupOpt o2 k = some v2 →
        confLookup (importIniSections (importIniSections [] L1) L2) S k = some v2)
    ∧ (∀ o1 v1, lookupSec L1 S = some o1 → lookupOpt o1 k = some v1 →
        (lookupSec L2 S = none ∨ ∃ o2, lookupSec L2 S = some o2 ∧ lookupOpt o2 k = none) →
        confLookup (importIniSections (importIniSections [] L1) L2) S k = some v1)
    ∧ (∀ o2, lookupSec L1 S = none → lookupSec L2 S = some o2 →
        lookupSec (importIniSections (importIniSections [] L1) L2) S = some o2) := by
  have hA1 : lookupSec (importIniSections [] L1) S = lookupSec L1 S := by
    rw [lookupSec_importIni L1 h1 [] S hS]
    cases hL1 : lookupSec L1 S <;> rfl
  have hRes : lookupSec (importIniSections (importIniSections [] L1) L2) S
      = match lookupSec L2 S with
        | none => lookupSec L1 S
        | some opts =>
          match lookupSec L1 S with
          | none => some opts
          | some base => some (opts.foldl (fun o p => setOpt o p.1 p.2) base) := by
    rw [lookupSec_importIni L2 h2 _ S hS, hA1]
  refine ⟨?_, ?_, ?_⟩
  · intro o1 o2 v2 hL1 hL2 hnd2 ho1 hk2
    unfold confLookup
    rw [hRes, hL2, hL1]
    exact lookupOpt_foldSet_present o2 o1 k v2 hnd2 hk2
  · intro o1 v1 hL1 hk1 hcase
    unfold confLookup
    rcases hcase with hL2 | ⟨o2, hL2, hk2⟩
    · rw [hRes, hL2, hL1]
      exact hk1
    · rw [hRes, hL2, hL1]
      show lookupOpt (List.foldl (fun o p => setOpt o p.1 p.2) o1 o2) k = some v1
      rw [lookupOpt_foldSet_absent o2 o1 k hk2]
      exact hk1
  · intro o2 hL1 hL2
    rw [hRes, hL2, hL1]

/-- Witness for C1 at concrete layers: `[cpu] core` is overridden by
L2, `[cpu] cycles` (defined only by L1) survives, and L2's new `[sdl]`
section is added wholesale. -/
theorem merge_override_witness :
    confLookup
        (importIniSections
          (importIniSections [] [("cpu", [("core", "auto"), ("cycles", "max")])])
          [("cpu", [("core", "dynamic")]), ("sdl", [("output", "opengl")])])
        "cpu" "core" = some "dynamic"
    ∧ confLookup
        (importIniSections
          (importIniSections [] [("cpu", [("core", "auto"), ("cycles", "max")])])
          [("cpu", [("core", "dynamic")]), ("sdl", [("output", "opengl")])])
        "cpu" "cycles" = some "max"
    ∧ lookupSec
        (importIniSections
          (importIniSections [] [("cpu", [("core", "auto"), ("cycles", "max")])])
          [("cpu", [("core", "dynamic")]), ("sdl", [("output", "opengl")])])
        "sdl" = some [("output", "opengl")] := by
  refine ⟨?_, ?_, ?_⟩
  · exact (merge_override [("cpu", [("core", "auto"), ("cycles", "max")])]
      [("cpu", [("core", "dynamic")]), ("sdl", [("output", "opengl")])] "cpu" "core"
      (by decide) (by decide) (by decide)).1
      [("core", "auto"), ("cycles", "max")] [("core", "dynamic")] "dynamic"
      (by decide) (by decide) (by decide) (by decide) (by decide)
  · exact (merge_override [("cpu", [("core", "auto"), ("cycles", "max")])]
      [("cpu", [("core", "dynamic")]), ("sdl", [("output", "opengl")])] "cpu" "cycles"
      (by decide) (by decide) (by decide)).2.1
      [("core", "auto"), ("cycles", "max")] "max" (by decide) (by decide)
      (Or.inr ⟨[("core", "dynamic")], by decide, by decide⟩)
  · exact (merge_override [("cpu", [("core", "auto"), ("cycles", "max")])]
      [("cpu", [("core", "dynamic")]), ("sdl", [("output", "opengl")])] "sdl" "output"
      (by decide) (by decide) (by decide)).2.2
      [("output", "opengl")] (by decide) (by decide)

/-- Claim C9, counterexample: the section name `autoexec` was never
merged in (the merge always skips it), yet `set` does not raise
`NoSectionError` — the key `'autoexec'` is always present in the dict,
so the assignment indexes the autoexec list with a string and raises a
`TypeError` instead. -/
theorem set_autoexec_typeerror_cex :
    DosboxConfiguration.set
        (mkDosboxConfiguration id [⟨[("cpu", [("core", "auto")])], [], "utf-8"⟩]
          [] none false false [])
        "autoexec" "core" "max"
      = Except.error SetError.typeError
    ∧ SetError.typeError ≠ SetError.noSectionError := by
  constructor
  · rfl
  · decide

/-- Claim C9 (amended): for every section name other than the
always-present `autoexec` key: `set` into an absent section signals
`NoSectionError` and produces no updated configuration; `set` into an
existing section returns the configuration with exactly that option set
to the value.  Setting into `autoexec` itself instead fails with a
`TypeError`, because that key holds the raw line list. -/
theorem set_missing_section (c : DosboxConfiguration) (sec opt val : String)
    (hsec : sec ≠ "autoexec") :
    (lookupSec c.sections sec = none →
        DosboxConfiguration.set c sec opt val = Except.error SetError.noSectionError)
    ∧ ∀ opts, lookupSec c.sections sec = some opts →
        DosboxConfiguration.set c sec opt val
            = Except.ok { c with sections := setSec c.sections sec opt val }
          ∧ lookupSec (setSec c.sections sec opt val) sec = some (setOpt opts opt val)
          ∧ lookupOpt (setOpt opts opt val) opt = some val := by
  constructor
  · intro hnone
    have hcond : ¬(sec = "autoexec" ∨ (lookupSec c.sections sec).isSome = true) := by
      rw [hnone]
      simp [hsec]
    unfold DosboxConfiguration.set
    rw [if_pos hcond]
  · intro opts hsome
    have hcond : sec = "autoexec" ∨ (lookupSec c.sections sec).isSome = true :=
      Or.inr (by rw [hsome]; rfl)
    refine ⟨?_, ?_, ?_⟩
    · unfold DosboxConfiguration.set
      rw [if_neg (not_not_intro hcond), if_neg hsec]
    · rw [lookupSec_setSec_self, hsome]
      rfl
    · exact lookupOpt_setOpt_self _ _ _

/-- Witness for C9 at a concrete configuration: setting into the absent
`render` section fails with `NoSectionError`; setting `cpu.core` in the
present `cpu` section succeeds and stores the value. -/
theorem set_missing_section_witness :
    DosboxConfiguration.set
        { sections := [("cpu", [("core", "auto")])], autoexec := [], encoding := "utf-8" }
        "render" "aspect" "true" = Except.error SetError.noSectionError
    ∧ DosboxConfiguration.set
        { sections := [("cpu", [("core", "auto")])], autoexec := [], encoding := "utf-8" }
        "cpu" "core" "max"
        = Except.ok
          { sections := [("cpu", [("core", "max")])], autoexec := [], encoding := "utf-8" } := by
  constructor
  · exact (set_missing_section
      { sections := [("cpu", [("core", "auto")])], autoexec := [], encoding := "utf-8" }
      "render" "aspect" "true" (by decide)).1 (by decide)
  · exact ((set_missing_section
      { sections := [("cpu", [("core", "auto")])], autoexec := [], encoding := "utf-8" }
      "cpu" "core" "max" (by decide)).2 [("core", "auto")] (by decide)).1

/-! ## Autoexec concatenation (claim C2) -/

theorem importLayer_autoexec (na : Bool) (cfg : DosboxConfiguration) (l : ParsedSource) :
    (importLayer na cfg l).autoexec
      = cfg.autoexec
        ++ (if ¬na ∧ (lookupSec l.sections "autoexec").isSome then l.autoexecLines
            else []) := by
  unfold importLayer
  split_ifs <;> simp

theorem foldImportLayer_autoexec (layers : List ParsedSource) (na : Bool)
    (cfg : DosboxConfiguration) :
    (layers.foldl (importLayer na) cfg).autoexec
      = cfg.autoexec
        ++ (layers.map (fun l =>
            if ¬na ∧ (lookupSec l.sections "autoexec").isSome then l.autoexecLines
            else [])).flatten := by
  induction layers generalizing cfg with
  | nil => simp
  | cons l t ih =>
    simp only [List.foldl_cons, List.map_cons, List.flatten_cons]
    rw [ih, importLayer_autoexec, List.append_assoc]

/-- Claim C2, counterexample: the claim's "no line is removed" fails.
A parser can capture autoexec lines without recording an `autoexec`
section (e.g. an indented `[autoexec]` header is swallowed as a
continuation line by the first pass while the second pass still starts
capturing, and a header like `[autoexec] [x]` yields the section name
`autoexec] [x`); `__init__` then drops the captured lines because
`conf.has_section('autoexec')` is false, so the built autoexec is not
the concatenation of the layers' line lists. -/
theorem mk_config_autoexec_drop_cex :
    (mkDosboxConfiguration id [⟨[("cpu", [("core", "auto")])], ["echo dropped"], "utf-8"⟩]
        [] none false false []).autoexec = []
    ∧ (mkDosboxConfiguration id [⟨[("cpu", [("core", "auto")])], ["echo dropped"], "utf-8"⟩]
        [] none false false []).autoexec ≠ ["echo dropped"] := by
  decide

/-- Claim C2 (amended): with autoexec suppression off, the resolved
autoexec sequence is exactly the concatenation, in order, of each file
layer's autoexec lines for those layers whose parsed sections contain
an `autoexec` section — a layer whose captured lines come without such
a section contributes nothing — then the injected commands verbatim,
then the synthesized launch lines; the length is the corresponding
sum. -/
theorem mk_config_autoexec_concat (toPosix : String → String) (layers : List ParsedSource)
    (commands : List String) (exe : Option String) (exitAfterExe : Bool)
    (tweak : ConfSections) :
    (mkDosboxConfiguration toPosix layers commands exe false exitAfterExe tweak).autoexec
        = (layers.map (fun l =>
            if (lookupSec l.sections "autoexec").isSome then l.autoexecLines else [])).flatten
          ++ commands ++ launch_lines toPosix exe exitAfterExe
    ∧ (mkDosboxConfiguration toPosix layers commands exe false exitAfterExe tweak).autoexec.length
        = (layers.map (fun l =>
            if (lookupSec l.sections "autoexec").isSome then l.autoexecLines.length
            else 0)).sum
          + commands.length + (launch_lines toPosix exe exitAfterExe).length := by
  have hmap : layers.map (fun l =>
        if ¬(false : Bool) ∧ (lookupSec l.sections "autoexec").isSome then l.autoexecLines
        else [])
      = layers.map (fun l =>
        if (lookupSec l.sections "autoexec").isSome then l.autoexecLines else []) := by
    apply List.map_congr_left
    intro l _
    cases hh : (lookupSec l.sections "autoexec").isSome with
    | true => simp [hh]
    | false => simp [hh]
  have hmk : (mkDosboxConfiguration toPosix layers commands exe false exitAfterExe tweak).autoexec
      = (layers.map (fun l =>
          if (lookupSec l.sections "autoexec").isSome then l.autoexecLines else [])).flatten
        ++ commands ++ launch_lines toPosix exe exitAfterExe := by
    show (layers.foldl (importLayer false)
          { sections := [], autoexec := [], encoding := "utf-8" }).autoexec
        ++ commands ++ launch_lines toPosix exe exitAfterExe = _
    rw [foldImportLayer_autoexec, hmap]
    simp
  refine ⟨hmk, ?_⟩
  rw [hmk]
  simp only [List.length_append, List.length_flatten, List.map_map, Function.comp_def,
    apply_ite List.length, List.length_nil]

/-- Witness for C2: two file layers — the first with an autoexec
section and two lines, the second, without one, contributing nothing —
one injected command, and a `.bat` launch target with exit-after-run. -/
theorem mk_config_autoexec_concat_witness :
    (mkDosboxConfiguration id
        [⟨[("autoexec", [])], ["echo one", "echo two"], "utf-8"⟩,
         ⟨[("cpu", [("core", "auto")])], [], "cp1250"⟩]
        ["keyb gr"] (some "GAME/start.bat") false true []).autoexec
      = ["echo one", "echo two", "keyb gr", "mount C GAME", "C:", "call start.bat", "exit"] := by
  have h := (mk_config_autoexec_concat id
    [⟨[("autoexec", [])], ["echo one", "echo two"], "utf-8"⟩,
     ⟨[("cpu", [("core", "auto")])], [], "cp1250"⟩]
    ["keyb gr"] (some "GAME/start.bat") true []).1
  rw [h]
  decide

/-! ## Autoexec capture (claim C3) -/

theorem autoexecCaptureGo_true (ls : List String) :
    autoexecCaptureGo true ls = ls.map pyRstrip := by
  induction ls with
  | nil => rfl
  | cons l t ih => simp [autoexecCaptureGo, ih]

/-- Claim C3, counterexample: the reader does not stop at the next
section header and does not keep lines verbatim.  After `[autoexec]`,
the claim demands exactly the verbatim line `"echo A  "` (capture up to
the `[cpu]` header); the code instead strips its trailing blanks and
keeps capturing `[cpu]` and its option line to the end of the file. -/
theorem autoexec_capture_cex :
    autoexecCapture ["[autoexec]", "echo A  ", "[cpu]", "core=auto"]
        = ["echo A", "[cpu]", "core=auto"]
    ∧ autoexecCapture ["[autoexec]", "echo A  ", "[cpu]", "core=auto"] ≠ ["echo A  "] := by
  decide

/-- Claim C3 (amended): for every file, the captured `autoexecLines`
are exactly the lines following the first `[autoexec]` header line up
to the END OF FILE — a later section header does not stop the capture —
each with trailing whitespace stripped (leading whitespace and comments
preserved); the block is never parsed as key/value pairs. -/
theorem autoexec_capture_to_eof (pre : List String) (hdr : String) (post : List String)
    (hpre : ∀ l ∈ pre, strStartsWith (pyStrip l) "[autoexec]" = false)
    (hhdr : strStartsWith (pyStrip hdr) "[autoexec]" = true) :
    autoexecCapture (pre ++ hdr :: post) = post.map pyRstrip := by
  induction pre with
  | nil =>
    simp only [List.nil_append]
    show autoexecCaptureGo false (hdr :: post) = post.map pyRstrip
    simp only [autoexecCaptureGo, hhdr, if_true]
    exact autoexecCaptureGo_true post
  | cons l t ih =>
    have hl : strStartsWith (pyStrip l) "[autoexec]" = false :=
      hpre l (List.mem_cons_self _ _)
    have hrest : ∀ l' ∈ t, strStartsWith (pyStrip l') "[autoexec]" = false :=
      fun l' hl' => hpre l' (List.mem_cons_of_mem _ hl')
    simp only [List.cons_append]
    show autoexecCaptureGo false (l :: (t ++ hdr :: post)) = post.map pyRstrip
    simp only [autoexecCaptureGo, hl]
    exact ih hrest

/-- Witness for C3: a file whose `[autoexec]` header carries blanks, a
captured line with trailing blanks, and nothing after. -/
theorem autoexec_capture_to_eof_witness :
    autoexecCapture ["[cpu]", "core=auto", " [autoexec] ", "mount C .  ", "echo hi"]
      = ["mount C .", "echo hi"] := by
  have h := autoexec_capture_to_eof ["[cpu]", "core=auto"] " [autoexec] "
    ["mount C .  ", "echo hi"] (by decide) (by decide)
  exact h.trans (by decide)

/-- Claim C4, counterexample: the claimed absence of residue fails.  A
file whose UTF-8 decoding fails after the parser has already stored a
section option (here `café=1`, valid UTF-8 before the bad byte) is
retried on the SAME parser; the cp1250 retry decodes those bytes
differently (`cafÃ©`) and merges into the residual state, so the result
keeps the UTF-8-decoded key alongside the cp1250 one and differs from a
fresh cp1250 read of the whole file. -/
theorem parse_config_residue_cex :
    parse_dosbox_config
        (fun ls => if ls = ["[a]", "café=1"] then [("a", [("café", "1")])]
          else [("a", [("cafÃ©", "1"), ("Ÿ", "2")])])
        (fun _ => DecodeResult.fail ["[a]", "café=1"])
        (fun _ => DecodeResult.ok ["[a]", "cafÃ©=1", "Ÿ=2"]) [1]
        = some (⟨[("a", [("café", "1"), ("cafÃ©", "1"), ("Ÿ", "2")])], []⟩, "cp1250")
    ∧ parse_dosbox_config
        (fun ls => if ls = ["[a]", "café=1"] then [("a", [("café", "1")])]
          else [("a", [("cafÃ©", "1"), ("Ÿ", "2")])])
        (fun _ => DecodeResult.fail ["[a]", "café=1"])
        (fun _ => DecodeResult.ok ["[a]", "cafÃ©=1", "Ÿ=2"]) [1]
        ≠ some (readOk
            (fun ls => if ls = ["[a]", "café=1"] then [("a", [("café", "1")])]
              else [("a", [("cafÃ©", "1"), ("Ÿ", "2")])])
            emptyParserState ["[a]", "cafÃ©=1", "Ÿ=2"], "cp1250") := by
  decide

/-- Claim C4 (amended): the reader first tries the whole file as UTF-8;
on a decode failure it retries the entire file exactly once as cp1250
and reports that encoding, the retry reading into the same parser, so
the returned state is the cp1250 read of the whole file merged into the
partial state left behind by the failed UTF-8 pass (a fresh cp1250 read
exactly when that partial state is empty, as when the failure precedes
any stored section); if the retry also fails the failure propagates
with no third fallback. -/
theorem parse_config_encoding_fallback (parseIni : List String → ConfSections)
    (decodeUtf8 decodeCp1250 : List Nat → DecodeResult) (file : List Nat) :
    (∀ ls, decodeUtf8 file = DecodeResult.ok ls →
        parse_dosbox_config parseIni decodeUtf8 decodeCp1250 file
          = some (readOk parseIni emptyParserState ls, "utf-8"))
    ∧ (∀ pre ls, decodeUtf8 file = DecodeResult.fail pre →
        decodeCp1250 file = DecodeResult.ok ls →
        parse_dosbox_config parseIni decodeUtf8 decodeCp1250 file
          = some (readOk parseIni (readFail parseIni emptyParserState pre) ls, "cp1250"))
    ∧ (∀ pre pre2, decodeUtf8 file = DecodeResult.fail pre →
        decodeCp1250 file = DecodeResult.fail pre2 →
        parse_dosbox_config parseIni decodeUtf8 decodeCp1250 file = none) := by
  refine ⟨?_, ?_, ?_⟩
  · intro ls h8
    simp only [parse_dosbox_config, h8, parserRead]
  · intro pre ls h8 h1250
    simp only [parse_dosbox_config, h8, h1250, parserRead]
  · intro pre pre2 h8 h1250
    simp only [parse_dosbox_config, h8, h1250, parserRead]

/-- Witness for C4: a one-byte file failing UTF-8 decoding before any
line is handed over (empty decoded part), then decoding under cp1250
into a two-line section: the result is the fresh cp1250 read, reported
as cp1250. -/
theorem parse_config_encoding_fallback_witness :
    parse_dosbox_config (fun ls => if ls = [] then [] else [("sdl", [("output", "opengl")])])
        (fun _ => DecodeResult.fail []) (fun _ => DecodeResult.ok ["[sdl]", "output=opengl"])
        [200]
      = some (⟨[("sdl", [("output", "opengl")])], []⟩, "cp1250") := by
  have h := (parse_config_encoding_fallback
    (fun ls => if ls = [] then [] else [("sdl", [("output", "opengl")])])
    (fun _ => DecodeResult.fail []) (fun _ => DecodeResult.ok ["[sdl]", "output=opengl"])
    [200]).2.1 [] ["[sdl]", "output=opengl"] rfl rfl
  exact h.trans (by decide)

/-! ## Autoexec rewriter (claims C5, C6, C7) -/

/-- Shared helper: on a line matched by the quoted form, or by the
unquoted form after the quoted form failed, `toLinuxLine` produces the
reassembled mount line. -/
theorem toLinuxLine_mount_eq (toPosix : String → String)
    (is_cue_file valid_cue_file_paths : String → Bool) (line : String) (m : MountMatch)
    (hm : parseMount true line = some m
        ∨ (parseMount true line = none ∧ parseMount false line = some m)) :
    toLinuxLine toPosix is_cue_file valid_cue_file_paths line
      = strLower m.cmd ++ " " ++ strUpper (String.mk [m.drive]) ++ " \""
        ++ (if strLower m.cmd = "imgmount"
            then convert_cue_file is_cue_file valid_cue_file_paths (toPosix m.path)
            else toPosix m.path)
        ++ "\"" ++ m.rest := by
  unfold toLinuxLine mountOutput
  rcases hm with h | ⟨h1, h2⟩
  · rw [h]
  · rw [h1, h2]

/-- Claim C5: the rewriter yields exactly one output line per input
line (the result is the element-wise image of the input, of equal
length), and every line matching none of the two mount forms nor the
drive-change form is emitted unchanged.  The input list itself is never
mutated — the embedding is a pure function of it. -/
theorem to_linux_autoexec_shape (toPosix : String → String)
    (is_cue_file valid_cue_file_paths : String → Bool) (lines : List String) :
    (to_linux_autoexec toPosix is_cue_file valid_cue_file_paths lines).length = lines.length
    ∧ to_linux_autoexec toPosix is_cue_file valid_cue_file_paths lines
        = lines.map (toLinuxLine toPosix is_cue_file valid_cue_file_paths)
    ∧ ∀ line ∈ lines, parseMount true line = none → parseMount false line = none →
        parseChangeDrive line = none →
        toLinuxLine toPosix is_cue_file valid_cue_file_paths line = line := by
  refine ⟨by simp [to_linux_autoexec], rfl, ?_⟩
  intro line _ h1 h2 h3
  unfold toLinuxLine
  rw [h1, h2, h3]

/-- Witness for C5: a non-matching line passes through unchanged and
the output length equals the input length. -/
theorem to_linux_autoexec_shape_witness :
    toLinuxLine id (fun _ => false) (fun _ => true) "echo hello" = "echo hello"
    ∧ (to_linux_autoexec id (fun _ => false) (fun _ => true) ["echo hello", "cls"]).length
        = 2 := by
  constructor
  · exact (to_linux_autoexec_shape id (fun _ => false) (fun _ => true)
      ["echo hello", "cls"]).2.2 "echo hello" (by decide) (by decide) (by decide) (by decide)
  · exact (to_linux_autoexec_shape id (fun _ => false) (fun _ => true) ["echo hello", "cls"]).1

/-- Claim C6: a line matching a mount/imgmount form — keyword matched
case-insensitively, the quoted-path form tried before the unquoted one —
is rewritten to `<cmd> <DRIVE> "<resolved-path>"<trailing>`: keyword
lowercased, drive uppercased, the path passed through the external case
resolver (the imgmount path additionally cue-checked, claim C7), and
the path always re-quoted whether or not the input was quoted. -/
theorem mount_line_rewrite (toPosix : String → String)
    (is_cue_file valid_cue_file_paths : String → Bool) (line : String) (m : MountMatch)
    (hm : parseMount true line = some m
        ∨ (parseMount true line = none ∧ parseMount false line = some m)) :
    toLinuxLine toPosix is_cue_file valid_cue_file_paths line
      = strLower m.cmd ++ " " ++ strUpper (String.mk [m.drive]) ++ " \""
        ++ (if strLower m.cmd = "imgmount"
            then convert_cue_file is_cue_file valid_cue_file_paths (toPosix m.path)
            else toPosix m.path)
        ++ "\"" ++ m.rest :=
  toLinuxLine_mount_eq toPosix is_cue_file valid_cue_file_paths line m hm

/-- Witness for C6, the spec's Scenario C: `MOUNT C "Games\MyGame"`
with a resolver mapping the path to `games/mygame` yields
`mount C "games/mygame"`. -/
theorem mount_line_rewrite_witness :
    toLinuxLine (fun p => if p = "Games\\MyGame" then "games/mygame" else p)
        (fun _ => false) (fun _ => true) "MOUNT C \"Games\\MyGame\""
      = "mount C \"games/mygame\"" := by
  have h := mount_line_rewrite (fun p => if p = "Games\\MyGame" then "games/mygame" else p)
    (fun _ => false) (fun _ => true) "MOUNT C \"Games\\MyGame\""
    ⟨"MOUNT", 'C', "Games\\MyGame", ""⟩ (Or.inl (by decide))
  exact h.trans (by decide)

/-- Claim C7: on an imgmount line the case-resolved path is further
cue-checked: a non-cue file and a cue file whose track paths are valid
pass through unchanged, while a cue file with case-mismatched track
references is replaced by the externally generated corrected copy
(`boxtron.cue`), which the output line then references. -/
theorem imgmount_cue_check (toPosix : String → String)
    (is_cue_file valid_cue_file_paths : String → Bool) (line : String) (m : MountMatch)
    (hm : parseMount true line = some m
        ∨ (parseMount true line = none ∧ parseMount false line = some m))
    (hcmd : strLower m.cmd = "imgmount") :
    toLinuxLine toPosix is_cue_file valid_cue_file_paths line
        = "imgmount" ++ " " ++ strUpper (String.mk [m.drive]) ++ " \""
          ++ convert_cue_file is_cue_file valid_cue_file_paths (toPosix m.path)
          ++ "\"" ++ m.rest
    ∧ ∀ p, (is_cue_file p = false → convert_cue_file is_cue_file valid_cue_file_paths p = p)
        ∧ (is_cue_file p = true → valid_cue_file_paths p = true →
            convert_cue_file is_cue_file valid_cue_file_paths p = p)
        ∧ (is_cue_file p = true → valid_cue_file_paths p = false →
            convert_cue_file is_cue_file valid_cue_file_paths p = "boxtron.cue") := by
  constructor
  · rw [toLinuxLine_mount_eq toPosix is_cue_file valid_cue_file_paths line m hm, hcmd]
    simp
  · intro p
    refine ⟨?_, ?_, ?_⟩
    · intro h
      simp [convert_cue_file, h]
    · intro h1 h2
      simp [convert_cue_file, h1, h2]
    · intro h1 h2
      simp [convert_cue_file, h1, h2]

/-- Witness for C7, the spec's Scenario D: an imgmount line naming a
cue sheet with invalid track paths is rewritten to reference the fixed
copy `boxtron.cue`. -/
theorem imgmount_cue_check_witness :
    toLinuxLine id (fun p => p == "game.cue") (fun _ => false) "imgmount D game.cue"
      = "imgmount D \"boxtron.cue\"" := by
  have h := (imgmount_cue_check id (fun p => p == "game.cue") (fun _ => false)
    "imgmount D game.cue" ⟨"imgmount", 'D', "game.cue", ""⟩
    (Or.inr ⟨by decide, by decide⟩) (by decide)).1
  exact h.trans (by decide)
